import Mathlib

/-!
Verification of the talk-to-remember realtime voice-session core.

This file gives a shallow embedding, in Lean, of the parts of the
repository that the specification's testable properties talk about:

* the relay's `CONFIRM_EDIT` handling (`handleConfirmEdit` in
  `backend/test-gemini-tool.mjs`),
* the relay's bounded drop-oldest outbound queue and frame forwarding
  (`setupLiveProxy`, client and upstream message handlers),
* the upstream-close handler,
* the client's PCM16 audio codec, speech gate and `sendAudioChunk`
  (`frontend/src/lib/liveSession.ts`),
* the transcript-log dedup (`appendTranscriptEntry` in the voice-chat
  component).

Numeric audio values are embedded as rationals: every constant in the
source (0.0035, 0.12, thresholds, scale factors) is an exact decimal,
and all arithmetic the embedded properties depend on is exact in the
source's double precision, so the rational embedding is faithful.
-/

/-- Character class of the JavaScript regex `\s` (the members relevant to
the wire strings handled here: ASCII whitespace plus NBSP and BOM). -/
def isJsWhitespace (c : Char) : Bool :=
  c = ' ' || c = '\t' || c = '\n' || c = '\r' || c = '\x0b' || c = '\x0c' ||
  c = ' ' || c = '﻿'

/-- Maximal runs of non-whitespace characters, in order; the second
argument accumulates the current run in reverse. -/
def wsTokens : List Char → List Char → List (List Char)
  | [], cur => if cur = [] then [] else [cur.reverse]
  | c :: cs, cur =>
    if isJsWhitespace c then
      (if cur = [] then wsTokens cs [] else cur.reverse :: wsTokens cs [])
    else wsTokens cs (c :: cur)

/-- Embeds `normalizeWhitespace` from `backend/test-gemini-tool.mjs`:
`value.replace(/\s+/g, " ").trim()` — collapse every whitespace run to a
single space and trim the ends.  (The component-side transcript dedup
uses the same expression inline.) -/
def normalizeWhitespace (value : String) : String :=
  String.intercalate " " ((wsTokens value.toList []).map String.mk)

/-- The payload fields the relay reads off a parsed `CONFIRM_EDIT` frame.
A missing or non-string field behaves like the empty string (the source
applies `|| ""` and `normalizeWhitespace` rejects non-strings). -/
structure ConfirmPayload where
  instruction : Option String
  imageBase64 : Option String
  mimeType : Option String

/-- Result shape of the image-edit collaborator `runImageEdit`. -/
structure EditedImage where
  imageBase64 : String
  mimeType : String

/-- Arguments of one invocation of the image-edit collaborator. -/
structure CollabCall where
  imageBase64 : String
  mimeType : String
  editPrompt : String
deriving DecidableEq

/-- Application events the relay synthesizes to the client socket.
`editFailed` carries `none` as instruction on the validation path (the
source's validation `EDIT_FAILED` has no `instruction` field). -/
inductive RelayEvent
  | editStatus (status : String) (instruction : String)
  | editCompleted (instruction : String) (version : String) (versionNumber : Nat)
      (imageBase64 : String) (mimeType : String)
  | editFailed (instruction : Option String) (error : String)
  | editConfirmCancelled
  | errorFrame (message : String)
  | closeClient (code : Nat) (reason : String)
deriving DecidableEq

/-- Per-connection edit state of the relay: the `editInProgress` flag and
`editVersionCounter` from `setupLiveProxy`, plus the instruction held by
the suspended `handleConfirmEdit` call while the collaborator runs. -/
structure EditState where
  editInProgress : Bool
  editVersionCounter : Nat
  pendingInstruction : Option String
deriving DecidableEq

/-- Relay edit state at client-connection time: no edit in flight,
version counter zero. -/
def initEditState : EditState := ⟨false, 0, none⟩

/-- Embeds the synchronous prefix of `handleConfirmEdit` (everything up
to and including the collaborator invocation): the `editInProgress`
guard, field normalization, validation, the flag set and the
`EDIT_STATUS` emission.  Returns the new state, the events sent to the
client, and the collaborator call if one is started. -/
def confirmStart (st : EditState) (p : ConfirmPayload) :
    EditState × List RelayEvent × Option CollabCall :=
  if st.editInProgress then (st, [], none)
  else
    let imageBase64 := normalizeWhitespace (p.imageBase64.getD "")
    let mimeType0 := normalizeWhitespace (p.mimeType.getD "")
    let mimeType := if mimeType0 = "" then "image/jpeg" else mimeType0
    let instruction := normalizeWhitespace (p.instruction.getD "")
    if imageBase64 = "" ∨ instruction = "" then
      (st, [.editFailed none "Missing image data or edit instruction."], none)
    else
      ({ st with editInProgress := true, pendingInstruction := some instruction },
       [.editStatus "editing" instruction],
       some ⟨imageBase64, mimeType, instruction⟩)

/-- Embeds the continuation of `handleConfirmEdit` after the awaited
collaborator returns: on success increment `editVersionCounter` and emit
`EDIT_COMPLETED` with label `v<counter>`; on failure emit `EDIT_FAILED`
with the error message (falling back to "Image edit failed" when the
thrown error has no message); either way clear `editInProgress`. -/
def confirmFinish (st : EditState) (outcome : Except String EditedImage) :
    EditState × List RelayEvent :=
  let instruction := st.pendingInstruction.getD ""
  match outcome with
  | .ok edited =>
      let n := st.editVersionCounter + 1
      ({ st with editInProgress := false, editVersionCounter := n, pendingInstruction := none },
       [.editCompleted instruction ("v" ++ toString n) n edited.imageBase64 edited.mimeType])
  | .error msg =>
      let message := if msg = "" then "Image edit failed" else msg
      ({ st with editInProgress := false, pendingInstruction := none },
       [.editFailed (some instruction) message])

/-- One complete execution of `handleConfirmEdit` on a `CONFIRM_EDIT`
frame, given the collaborator's outcome: the synchronous prefix, then —
only if a collaborator call was actually started — the continuation.
Returns final state, all events emitted to the client in order, and the
list of collaborator invocations made. -/
def handleConfirmEdit (st : EditState) (p : ConfirmPayload)
    (outcome : Except String EditedImage) :
    EditState × List RelayEvent × List CollabCall :=
  match confirmStart st p with
  | (st1, evs, none) => (st1, evs, [])
  | (st1, evs, some call) =>
      let r := confirmFinish st1 outcome
      (r.1, evs ++ r.2, [call])

/-- Default of the relay's `MAX_QUEUE_MESSAGES` environment setting. -/
def defaultMaxQueueMessages : Nat := 120

/-- Embeds the enqueue path of the relay's client-message handler while
the upstream is not available:
`if (queue.length >= MAX_QUEUE_MESSAGES) queue.shift(); queue.push(outbound);`
— drop the oldest entry when full, then append the new frame. -/
def enqueueFrame (maxQueueMessages : Nat) (queue : List String) (outbound : String) :
    List String :=
  (if maxQueueMessages ≤ queue.length then queue.drop 1 else queue) ++ [outbound]

/-- Embeds the tail of the client-message handler: frames go straight to
the upstream socket when it is connected and open, otherwise through the
bounded queue.  Returns the new queue and the frame sent upstream, if
any. -/
def forwardOrEnqueue (maxQueueMessages : Nat) (upstreamReady : Bool)
    (queue : List String) (outbound : String) : List String × Option String :=
  if upstreamReady then (queue, some outbound)
  else (enqueueFrame maxQueueMessages queue outbound, none)

/-- Embeds the flush loop of the upstream `open` handler:
`while (queue.length > 0 ...) geminiWs.send(queue.shift())` — the queued
frames are sent in FIFO order and the queue empties. -/
def flushQueue (queue : List String) : List String × List String :=
  (queue, [])

/-- Queue contents after a sequence of client frames arrives while the
upstream is not available. -/
def runDisconnected (maxQueueMessages : Nat) (queue : List String)
    (msgs : List String) : List String :=
  msgs.foldl (enqueueFrame maxQueueMessages) queue

/-- Embeds the reason fallback of the relay's upstream `close` handler:
`reason?.toString() || "(no reason)"`. -/
def upstreamCloseReason (reason : String) : String :=
  if reason = "" then "(no reason)" else reason

/-- Connection-level state the upstream `close` handler interacts with:
whether the upstream handshake had completed (`geminiConnected`) and
whether the client socket is still open. -/
structure ProxyConnState where
  geminiConnected : Bool
  clientOpen : Bool
deriving DecidableEq

/-- Embeds the relay's `geminiWs.on("close", ...)` handler: clear
`geminiConnected`, send the client an `error` frame
`Proxy upstream closed (<code>): <reason>` (sends are skipped when the
client socket is closed, per `safeSendJson`), then close the client
socket with the matching code and reason. -/
def onUpstreamClose (st : ProxyConnState) (code : Nat) (reason : String) :
    ProxyConnState × List RelayEvent :=
  let reasonText := upstreamCloseReason reason
  let events :=
    (if st.clientOpen then
      [RelayEvent.errorFrame ("Proxy upstream closed (" ++ toString code ++ "): " ++ reasonText)]
     else []) ++
    (if st.clientOpen then [RelayEvent.closeClient code reasonText] else [])
  ({ st with geminiConnected := false }, events)

/-- JSON values as JavaScript's `JSON.parse` produces them, restricted
to the numerics this embedding models: integer number literals (no
fraction or exponent part — frames carrying such numbers are treated as
outside the modeled fragment).  Objects keep their properties in
JavaScript insertion order. -/
inductive Json where
  | null
  | bool (b : Bool)
  | num (n : Int)
  | str (s : String)
  | arr (elems : List Json)
  | obj (members : List (String × Json))

/-- The whitespace characters `JSON.parse` skips between tokens. -/
def skipJsonWs : List Char → List Char
  | [] => []
  | c :: cs =>
    if c = ' ' ∨ c = '\t' ∨ c = '\n' ∨ c = '\r' then skipJsonWs cs else c :: cs

/-- Value of one hexadecimal digit, as in a `\u` escape. -/
def hexDigitVal (c : Char) : Option Nat :=
  if '0' ≤ c ∧ c ≤ '9' then some (c.toNat - 48)
  else if 'a' ≤ c ∧ c ≤ 'f' then some (c.toNat - 87)
  else if 'A' ≤ c ∧ c ≤ 'F' then some (c.toNat - 55)
  else none

/-- Prepend a decoded character to a string-body parse result. -/
def consParsed (c : Char) (r : Option (List Char × List Char)) :
    Option (List Char × List Char) :=
  r.map (fun p => (c :: p.1, p.2))

/-- Body of a JSON string literal after the opening quote: standard
escapes, `\uXXXX`, and a ban on raw control characters, as in
`JSON.parse`.  Returns the decoded characters and the input after the
closing quote. -/
def parseStringBody : List Char → Option (List Char × List Char)
  | [] => none
  | c :: cs =>
    if c = '"' then some ([], cs)
    else if c = '\\' then
      match cs with
      | [] => none
      | e :: cs2 =>
        if e = '"' then consParsed '"' (parseStringBody cs2)
        else if e = '\\' then consParsed '\\' (parseStringBody cs2)
        else if e = '/' then consParsed '/' (parseStringBody cs2)
        else if e = 'b' then consParsed '\x08' (parseStringBody cs2)
        else if e = 'f' then consParsed '\x0c' (parseStringBody cs2)
        else if e = 'n' then consParsed '\n' (parseStringBody cs2)
        else if e = 'r' then consParsed '\r' (parseStringBody cs2)
        else if e = 't' then consParsed '\t' (parseStringBody cs2)
        else if e = 'u' then
          match cs2 with
          | h1 :: h2 :: h3 :: h4 :: cs3 =>
            match hexDigitVal h1, hexDigitVal h2, hexDigitVal h3, hexDigitVal h4 with
            | some a, some b, some c3, some d =>
                consParsed (Char.ofNat (a * 4096 + b * 256 + c3 * 16 + d))
                  (parseStringBody cs3)
            | _, _, _, _ => none
          | _ => none
        else none
    else if c.toNat < 32 then none
    else consParsed c (parseStringBody cs)

/-- Longest prefix of decimal digits and the rest of the input. -/
def takeDigits : List Char → List Char × List Char
  | [] => ([], [])
  | c :: cs =>
    if c.isDigit then
      let r := takeDigits cs
      (c :: r.1, r.2)
    else ([], c :: cs)

/-- Decimal digit characters to a natural number. -/
def digitsToNat (ds : List Char) : Nat :=
  ds.foldl (fun acc c => acc * 10 + (c.toNat - 48)) 0

/-- A JSON integer literal after an optional leading minus sign (which
the caller has consumed, passing `neg`): `0` or a nonzero digit run,
with JSON's leading-zero rule.  A following `.`, `e` or `E` would start
a float literal, which is outside the modeled fragment: parsing fails
there. -/
def parseIntLexeme (neg : Bool) (cs : List Char) : Option (Json × List Char) :=
  match cs with
  | [] => none
  | c :: cs2 =>
    if ¬ c.isDigit then none
    else if c = '0' then
      match cs2 with
      | [] => some (.num 0, [])
      | d :: _ =>
        if d.isDigit ∨ d = '.' ∨ d = 'e' ∨ d = 'E' then none
        else some (.num 0, cs2)
    else
      let r := takeDigits (c :: cs2)
      match r.2 with
      | [] => some (.num (if neg then -(digitsToNat r.1 : Int) else (digitsToNat r.1 : Int)), [])
      | d :: _ =>
        if d = '.' ∨ d = 'e' ∨ d = 'E' then none
        else some (.num (if neg then -(digitsToNat r.1 : Int) else (digitsToNat r.1 : Int)), r.2)

/-- Insert a parsed object member as JavaScript does while building the
result of `JSON.parse`: a repeated key overwrites the earlier value in
place (keeping the first key's position); a new key is appended. -/
def insertMember : List (String × Json) → String → Json → List (String × Json)
  | [], k, v => [(k, v)]
  | (k2, v2) :: rest, k, v =>
      if k2 = k then (k, v) :: rest else (k2, v2) :: insertMember rest k v

/-- Resolve duplicate keys of a parsed member list, JavaScript-style. -/
def buildObj (pairs : List (String × Json)) : List (String × Json) :=
  pairs.foldl (fun acc p => insertMember acc p.1 p.2) []

mutual

/-- One JSON value, fuel-bounded recursive descent mirroring
`JSON.parse` (over the modeled fragment). -/
def parseValue : Nat → List Char → Option (Json × List Char)
  | 0, _ => none
  | Nat.succ fuel, cs =>
    match skipJsonWs cs with
    | 'n' :: 'u' :: 'l' :: 'l' :: rest => some (.null, rest)
    | 't' :: 'r' :: 'u' :: 'e' :: rest => some (.bool true, rest)
    | 'f' :: 'a' :: 'l' :: 's' :: 'e' :: rest => some (.bool false, rest)
    | '"' :: rest => (parseStringBody rest).map (fun p => (.str (String.mk p.1), p.2))
    | '-' :: rest => parseIntLexeme true rest
    | '[' :: rest =>
      (match skipJsonWs rest with
       | ']' :: rest2 => some (.arr [], rest2)
       | cs2 => (parseElems fuel cs2).map (fun p => (.arr p.1, p.2)))
    | '\x7b' :: rest =>
      (match skipJsonWs rest with
       | '\x7d' :: rest2 => some (.obj [], rest2)
       | cs2 => (parseMembers fuel cs2).map (fun p => (.obj (buildObj p.1), p.2)))
    | c :: rest => if c.isDigit then parseIntLexeme false (c :: rest) else none
    | [] => none

/-- Comma-separated array elements up to the closing bracket. -/
def parseElems : Nat → List Char → Option (List Json × List Char)
  | 0, _ => none
  | Nat.succ fuel, cs =>
    match parseValue fuel cs with
    | none => none
    | some (v, rest) =>
      match skipJsonWs rest with
      | ',' :: rest2 => (parseElems fuel rest2).map (fun p => (v :: p.1, p.2))
      | ']' :: rest2 => some ([v], rest2)
      | _ => none

/-- Comma-separated object members up to the closing brace, as raw
key-value pairs in source order. -/
def parseMembers : Nat → List Char → Option (List (String × Json) × List Char)
  | 0, _ => none
  | Nat.succ fuel, cs =>
    match skipJsonWs cs with
    | '"' :: rest =>
      (match parseStringBody rest with
       | none => none
       | some (key, rest2) =>
         match skipJsonWs rest2 with
         | ':' :: rest3 =>
           (match parseValue fuel rest3 with
            | none => none
            | some (v, rest4) =>
              match skipJsonWs rest4 with
              | ',' :: rest5 =>
                (parseMembers fuel rest5).map (fun p => ((String.mk key, v) :: p.1, p.2))
              | '\x7d' :: rest5 => some ([(String.mk key, v)], rest5)
              | _ => none)
         | _ => none)
    | _ => none

end

/-- Embeds `JSON.parse(data)` as the relay uses it: the whole input must
be one JSON value surrounded only by whitespace. -/
def parseJson (s : String) : Option Json :=
  match parseValue (s.length + 1) s.toList with
  | some (v, rest) => if skipJsonWs rest = [] then some v else none
  | none => none

/-- Lowercase hexadecimal digit, as `JSON.stringify` emits in `\u`
escapes. -/
def hexDigitChar (n : Nat) : Char :=
  if n < 10 then Char.ofNat (48 + n) else Char.ofNat (87 + n)

/-- Escaping of one character inside a `JSON.stringify` string
literal. -/
def escapeJsonChar (c : Char) : List Char :=
  if c = '"' then ['\\', '"']
  else if c = '\\' then ['\\', '\\']
  else if c = '\x08' then ['\\', 'b']
  else if c = '\x0c' then ['\\', 'f']
  else if c = '\n' then ['\\', 'n']
  else if c = '\r' then ['\\', 'r']
  else if c = '\t' then ['\\', 't']
  else if c.toNat < 32 then
    ['\\', 'u', '0', '0', hexDigitChar (c.toNat / 16), hexDigitChar (c.toNat % 16)]
  else [c]

/-- A `JSON.stringify` string literal. -/
def quoteJsonString (s : String) : String :=
  "\"" ++ String.mk ((s.toList.map escapeJsonChar).flatten) ++ "\""

mutual

/-- Embeds `JSON.stringify` on parsed values (the modeled fragment): no
added whitespace, members in property order. -/
def stringifyJson : Json → String
  | .null => "null"
  | .bool true => "true"
  | .bool false => "false"
  | .num n => toString n
  | .str s => quoteJsonString s
  | .arr elems => "[" ++ stringifyElems elems ++ "]"
  | .obj members => "\x7b" ++ stringifyMembers members ++ "\x7d"

/-- Array elements joined by commas. -/
def stringifyElems : List Json → String
  | [] => ""
  | [v] => stringifyJson v
  | v :: vs => stringifyJson v ++ "," ++ stringifyElems vs

/-- Object members joined by commas. -/
def stringifyMembers : List (String × Json) → String
  | [] => ""
  | [(k, v)] => quoteJsonString k ++ ":" ++ stringifyJson v
  | (k, v) :: ms => quoteJsonString k ++ ":" ++ stringifyJson v ++ "," ++ stringifyMembers ms

end

/-- First member with the given key (parsed objects have unique keys). -/
def lookupMember : List (String × Json) → String → Option Json
  | [], _ => none
  | (k, v) :: rest, key => if k = key then some v else lookupMember rest key

/-- Embeds the relay's `parsed?.type` access compared against a control
verb: a string-valued `type` property of an object, else nothing. -/
def jsonType (v : Json) : Option String :=
  match v with
  | .obj members =>
    (match lookupMember members "type" with
     | some (.str s) => some s
     | _ => none)
  | _ => none

/-- What the relay's client-message handler does with one inbound client
frame. -/
inductive ClientFrameAction where
  | confirmEdit (payload : Json)
  | cancelConfirm
  | toUpstream (outbound : String)

/-- Embeds the dispatch of `clientWs.on("message", ...)`: parse the
frame; a `CONFIRM_EDIT` object goes to `handleConfirmEdit` and a
`CANCEL_EDIT_CONFIRM` object is answered directly, neither reaching the
upstream; any other frame that parses as JSON is re-serialized
(`outbound = JSON.stringify(JSON.parse(data))`) and forwarded; a frame
that does not parse is forwarded as its original bytes. -/
def routeClientFrame (data : String) : ClientFrameAction :=
  match parseJson data with
  | some v =>
    if jsonType v = some "CONFIRM_EDIT" then .confirmEdit v
    else if jsonType v = some "CANCEL_EDIT_CONFIRM" then .cancelConfirm
    else .toUpstream (stringifyJson v)
  | none => .toUpstream data

/-- Embeds the pass-through of `geminiWs.on("message", ...)`: when the
client socket is open, the upstream frame is sent to the client as its
original bytes (any synthesized `transcript`/`proxy` frames are
additional separate sends after it). -/
def upstreamToClientForward (clientOpen : Bool) (data : String) : Option String :=
  if clientOpen then some data else none

/-- Embeds `Math.max(-1, Math.min(1, s))` — the clamp before
quantization in `sendAudioChunk`. -/
def clampSample (x : ℚ) : ℚ := max (-1) (min 1 x)

/-- Truncation toward zero, as JavaScript's ToInteger does when a double
is stored into an `Int16Array` element. -/
def truncRat (q : ℚ) : Int := if q < 0 then -(Int.floor (-q)) else Int.floor q

/-- Wrap of an integer into the signed 16-bit range, as `Int16Array`
storage does. -/
def toInt16 (n : Int) : Int := (n + 32768) % 65536 - 32768

/-- One sample of the encode loop in `sendAudioChunk`
(`liveSession.ts`): clamp to [-1, 1]; a negative sample scales by
0x8000, a non-negative one by 0x7fff; the double is stored into an
`Int16Array` element. -/
def encodeSample (x : ℚ) : Int :=
  toInt16 (truncRat (if clampSample x < 0 then clampSample x * 32768 else clampSample x * 32767))

/-- One sample of the playback decode loop in `processAudioQueue`:
`int16Array[i] / 32768`. -/
def decodeSample (n : Int) : ℚ := (n : ℚ) / 32768

/-- Sample-wise wire encoding of a capture buffer (the base64 framing
around these integers is byte-transparent and not modeled). -/
def encodePcm16 (samples : List ℚ) : List Int := samples.map encodeSample

/-- Sample-wise decoding of a received PCM16 buffer. -/
def decodePcm16 (data : List Int) : List ℚ := data.map decodeSample

/-- Speech-gate constants of `LiveSession`: `minSpeechRms = 0.0075`. -/
def minSpeechRms : ℚ := 75/10000

/-- `speechThresholdMultiplier = 2.2`. -/
def speechThresholdMultiplier : ℚ := 22/10

/-- `gateHoldMs = 360`. -/
def gateHoldMs : ℚ := 360

/-- The adaptive state of the speech gate: `ambientNoiseFloorRms` and
`speechGateOpenUntilMs` fields of `LiveSession`. -/
structure GateState where
  ambientNoiseFloorRms : ℚ
  speechGateOpenUntilMs : ℚ
deriving DecidableEq

/-- Initial field values of `LiveSession`: noise floor 0.0035, gate
closed (open-until 0). -/
def initGateState : GateState := ⟨35/10000, 0⟩

/-- One captured frame as the gate logic sees it: its RMS energy (the
source computes `sqrt(powerSum / length)`; the gate only compares and
mixes this value, so it enters the embedding as the frame's attribute),
the capture timestamp `performance.now()`, and whether assistant
playback is active. -/
structure AudioFrameInput where
  rms : ℚ
  nowMs : ℚ
  isPlaying : Bool
deriving DecidableEq

/-- `Math.max(minSpeechRms, ambientNoiseFloorRms * speechThresholdMultiplier)`. -/
def dynamicThreshold (floor : ℚ) : ℚ := max minSpeechRms (floor * speechThresholdMultiplier)

/-- The echo-suppression tripling while playback is active:
`isPlaying ? dynamicThreshold * 3.0 : dynamicThreshold`. -/
def effectiveThreshold (floor : ℚ) (isPlaying : Bool) : ℚ :=
  if isPlaying then dynamicThreshold floor * 3 else dynamicThreshold floor

/-- The per-frame speech classification `rms >= effectiveThreshold`. -/
def isSpeechFrame (st : GateState) (f : AudioFrameInput) : Bool :=
  decide (effectiveThreshold st.ambientNoiseFloorRms f.isPlaying ≤ f.rms)

/-- Noise-floor adaptation on a non-speech frame: rate 0.12 when the
energy exceeds the floor, 0.03 below it, clamped to [0.0025, 0.03]. -/
def adaptNoiseFloor (floor rms : ℚ) : ℚ :=
  min (max (floor + (rms - floor) * (if floor < rms then 12/100 else 3/100)) (25/10000)) (3/100)

/-- One frame through the speech gate in `sendAudioChunk`: a speech
frame re-arms the hold window (`speechGateOpenUntilMs = now +
gateHoldMs`); a non-speech frame adapts the noise floor; the gate is
open iff the frame is speech or the hold window still covers `now`.
Returns the new state, the speech flag and the gate decision. -/
def gateStep (st : GateState) (f : AudioFrameInput) : GateState × Bool × Bool :=
  let isSpeech := isSpeechFrame st f
  let st' :=
    if isSpeech then { st with speechGateOpenUntilMs := f.nowMs + gateHoldMs }
    else { st with ambientNoiseFloorRms := adaptNoiseFloor st.ambientNoiseFloorRms f.rms }
  (st', isSpeech, isSpeech || decide (f.nowMs < st'.speechGateOpenUntilMs))

/-- The gate over a frame sequence: per frame, the frame itself with its
speech flag and gate decision. -/
def gateRun (st : GateState) : List AudioFrameInput → List (AudioFrameInput × Bool × Bool)
  | [] => []
  | f :: fs =>
    let r := gateStep st f
    (f, r.2.1, r.2.2) :: gateRun r.1 fs

/-- The gate state after a frame sequence. -/
def gateFinal (st : GateState) (fs : List AudioFrameInput) : GateState :=
  fs.foldl (fun s f => (gateStep s f).1) st

/-- The `LiveSession` state `sendAudioChunk` reads: the connection
check, the playback flag, and the gate state. -/
structure SessionAudioState where
  connected : Bool
  isPlaying : Bool
  gate : GateState
deriving DecidableEq

/-- Embeds `sendAudioChunk`: return without sending unless connected;
run the speech gate on the frame's RMS; build an `Int16Array` of the
frame's length that holds the encoded samples when the gate is open and
stays all-zero (silence) when it is closed; always hand that buffer to
the transport as one `realtimeInput` media chunk.  (The RMS enters as an
input — see `AudioFrameInput`; over the rationals it is always finite,
so the source's `Number.isFinite` guard is always passed.) -/
def sendAudioChunk (st : SessionAudioState) (samples : List ℚ) (rms nowMs : ℚ) :
    SessionAudioState × Option (List Int) :=
  if st.connected then
    let r := gateStep st.gate ⟨rms, nowMs, st.isPlaying⟩
    let int16Data := if r.2.2 then samples.map encodeSample else List.replicate samples.length 0
    ({ st with gate := r.1 }, some int16Data)
  else (st, none)

/-- A committed transcript-log entry (also the shape of the incoming
`LiveTranscriptEntry`). -/
structure TranscriptEntry where
  role : String
  text : String
  isFinal : Bool
deriving DecidableEq

/-- Embeds `appendTranscriptEntry` from the voice-chat component:
non-final entries are dropped; the text is whitespace-normalized and
empty results dropped; an entry equal (same role, same normalized text)
to the last committed entry is suppressed; otherwise it is appended as a
final entry. -/
def appendTranscriptEntry (log : List TranscriptEntry) (entry : TranscriptEntry) :
    List TranscriptEntry :=
  if entry.isFinal then
    let normalized := normalizeWhitespace entry.text
    if normalized = "" then log
    else
      match log.getLast? with
      | some last =>
        if last.role = entry.role ∧ last.text = normalized then log
        else log ++ [⟨entry.role, normalized, true⟩]
      | none => log ++ [⟨entry.role, normalized, true⟩]
  else log

-- Theorems

/-- C1: at most one edit in flight per connection.  While
`editInProgress` is set, a further `CONFIRM_EDIT` is a pure no-op: the
collaborator is not invoked again, no events are emitted, and the state
(hence anything that could replay it later) is unchanged.  Moreover a
`CONFIRM_EDIT` frame is always consumed by the handler — it is never
routed to the relay's outbound queue, so it cannot be queued for later
execution. -/
theorem at_most_one_edit_in_flight :
    (∀ (st : EditState) (p : ConfirmPayload) (outcome : Except String EditedImage),
      st.editInProgress = true → handleConfirmEdit st p outcome = (st, [], [])) ∧
    (∀ (data : String) (v : Json), parseJson data = some v →
      jsonType v = some "CONFIRM_EDIT" →
      routeClientFrame data = .confirmEdit v) := by
  constructor
  · intro st p outcome h
    simp [handleConfirmEdit, confirmStart, h]
  · intro data v hparse htype
    simp [routeClientFrame, hparse, htype]

/-- Witness for `at_most_one_edit_in_flight`: a concrete in-flight state
ignores a second confirm, and a concrete `CONFIRM_EDIT` frame is
intercepted rather than forwarded. -/
theorem at_most_one_edit_in_flight_witness :
    handleConfirmEdit ⟨true, 0, some "warm"⟩
      ⟨some "next", some "AAA", none⟩ (.error "x") = (⟨true, 0, some "warm"⟩, [], []) ∧
    routeClientFrame "\x7b\"type\":\"CONFIRM_EDIT\"\x7d" =
      .confirmEdit (.obj [("type", .str "CONFIRM_EDIT")]) := by
  exact ⟨at_most_one_edit_in_flight.1 ⟨true, 0, some "warm"⟩ ⟨some "next", some "AAA", none⟩
      (.error "x") rfl,
    at_most_one_edit_in_flight.2 "\x7b\"type\":\"CONFIRM_EDIT\"\x7d"
      (.obj [("type", .str "CONFIRM_EDIT")]) rfl rfl⟩

/-- C5 counterexample: the frame `\x7b "a": "b" \x7d` (spaces inside) is
not a control verb, yet the relay forwards it to the upstream as the
re-serialization `\x7b"a":"b"\x7d` — different bytes from what the
client sent. -/
theorem frame_forwarding_counterexample :
    routeClientFrame "\x7b \"a\": \"b\" \x7d" = .toUpstream "\x7b\"a\":\"b\"\x7d" ∧
    "\x7b\"a\":\"b\"\x7d" ≠ "\x7b \"a\": \"b\" \x7d" := by
  exact ⟨rfl, by decide⟩

/-- C5 amended: forwarding is byte-transparent upstream-to-client for
every frame, and client-to-upstream exactly for frames that do not
parse as JSON (in particular binary audio); a client frame that parses
as JSON and is not a control verb is forwarded as the re-serialization
of its parsed value — a function of the value alone, so two encodings
of the same value forward identically, but not necessarily the original
bytes. -/
theorem frame_forwarding_amended (data : String) :
    (parseJson data = none → routeClientFrame data = .toUpstream data) ∧
    (∀ v : Json, parseJson data = some v →
      jsonType v ≠ some "CONFIRM_EDIT" → jsonType v ≠ some "CANCEL_EDIT_CONFIRM" →
      routeClientFrame data = .toUpstream (stringifyJson v) ∧
      ∀ data2 : String, parseJson data2 = some v →
        routeClientFrame data2 = routeClientFrame data) ∧
    upstreamToClientForward true data = some data := by
  refine ⟨?_, ?_, rfl⟩
  · intro h
    simp [routeClientFrame, h]
  · intro v hv h1 h2
    refine ⟨by simp [routeClientFrame, hv, h1, h2], ?_⟩
    intro data2 h3
    simp [routeClientFrame, hv, h1, h2, h3]

/-- Witness for `frame_forwarding_amended`: a non-JSON (binary-like)
frame is forwarded as its own bytes; a JSON non-control frame and a
differently-spaced encoding of the same value forward identically. -/
theorem frame_forwarding_amended_witness :
    routeClientFrame "\xffbinary" = .toUpstream "\xffbinary" ∧
    routeClientFrame "\x7b\"a\":\"b\"\x7d" = .toUpstream "\x7b\"a\":\"b\"\x7d" ∧
    routeClientFrame "\x7b \"a\": \"b\" \x7d" = routeClientFrame "\x7b\"a\":\"b\"\x7d" ∧
    upstreamToClientForward true "audio-bytes" = some "audio-bytes" := by
  refine ⟨(frame_forwarding_amended "\xffbinary").1 rfl, ?_, ?_, (frame_forwarding_amended "audio-bytes").2.2⟩
  · exact ((frame_forwarding_amended "\x7b\"a\":\"b\"\x7d").2.1 (.obj [("a", .str "b")])
      rfl (by decide) (by decide)).1
  · exact ((frame_forwarding_amended "\x7b\"a\":\"b\"\x7d").2.1 (.obj [("a", .str "b")])
      rfl (by decide) (by decide)).2 "\x7b \"a\": \"b\" \x7d" rfl

/-- Sliding-window shape of the disconnected enqueue loop: starting from
a queue within capacity, the queue after any message sequence is exactly
the most recent `min (total) capacity` frames, in their original
relative order. -/
theorem runDisconnected_window (maxQueueMessages : Nat) (hpos : 0 < maxQueueMessages) :
    ∀ (msgs q : List String), q.length ≤ maxQueueMessages →
      runDisconnected maxQueueMessages q msgs =
        (q ++ msgs).drop
          (q.length + msgs.length - min (q.length + msgs.length) maxQueueMessages) := by
  intro msgs
  induction msgs with
  | nil =>
      intro q hq
      simp only [runDisconnected, List.foldl_nil, List.append_nil, List.length_nil,
        Nat.add_zero]
      have hidx : q.length - min q.length maxQueueMessages = 0 := by omega
      rw [hidx, List.drop_zero]
  | cons m rest ih =>
      intro q hq
      have hstep : runDisconnected maxQueueMessages q (m :: rest) =
          runDisconnected maxQueueMessages (enqueueFrame maxQueueMessages q m) rest := rfl
      rw [hstep]
      by_cases hfull : maxQueueMessages ≤ q.length
      · have hlen : q.length = maxQueueMessages := le_antisymm hq hfull
        obtain ⟨a, q', rfl⟩ : ∃ a q', q = a :: q' := by
          cases q with
          | nil => simp at hlen; omega
          | cons a q' => exact ⟨a, q', rfl⟩
        have henq : enqueueFrame maxQueueMessages (a :: q') m = q' ++ [m] := by
          unfold enqueueFrame
          rw [if_pos hfull]
          rfl
        rw [henq]
        have hlen' : (q' ++ [m]).length ≤ maxQueueMessages := by
          simp at hlen ⊢
          omega
        rw [ih (q' ++ [m]) hlen']
        have hA : (q' ++ [m]).length + rest.length -
            min ((q' ++ [m]).length + rest.length) maxQueueMessages = rest.length := by
          simp at hlen ⊢
          omega
        have hB : (a :: q').length + (m :: rest).length -
            min ((a :: q').length + (m :: rest).length) maxQueueMessages = rest.length + 1 := by
          simp at hlen ⊢
          omega
        rw [hA, hB]
        have hlist : (q' ++ [m]) ++ rest = q' ++ (m :: rest) := by
          simp
        rw [hlist]
        rfl
      · have henq : enqueueFrame maxQueueMessages q m = q ++ [m] := by
          unfold enqueueFrame
          rw [if_neg hfull]
        rw [henq]
        have hlen' : (q ++ [m]).length ≤ maxQueueMessages := by
          simp
          omega
        rw [ih (q ++ [m]) hlen']
        have hidx : (q ++ [m]).length + rest.length -
            min ((q ++ [m]).length + rest.length) maxQueueMessages =
            q.length + (m :: rest).length -
              min (q.length + (m :: rest).length) maxQueueMessages := by
          simp
          omega
        rw [hidx]
        have hlist : (q ++ [m]) ++ rest = q ++ (m :: rest) := by
          simp
        rw [hlist]

/-- C2: while the upstream is not connected, the per-connection outbound
queue is a bounded drop-oldest buffer: after pushing more frames than
the configured capacity (for any positive configured capacity) the queue
holds exactly `maxQueueMessages` frames, namely the most recently pushed
ones in their original relative order; no intermediate point exceeds the
bound; and when the upstream opens the queued frames are flushed in FIFO
order, emptying the queue. -/
theorem outbound_queue_bound (maxQueueMessages : Nat) (msgs : List String)
    (hpos : 0 < maxQueueMessages) (hmore : maxQueueMessages < msgs.length) :
    (runDisconnected maxQueueMessages [] msgs).length = maxQueueMessages ∧
    runDisconnected maxQueueMessages [] msgs =
      msgs.drop (msgs.length - maxQueueMessages) ∧
    (∀ n : Nat,
      (runDisconnected maxQueueMessages [] (msgs.take n)).length ≤ maxQueueMessages) ∧
    flushQueue (runDisconnected maxQueueMessages [] msgs) =
      (msgs.drop (msgs.length - maxQueueMessages), []) := by
  have hwin := runDisconnected_window maxQueueMessages hpos msgs [] (by simp)
  simp only [List.nil_append, List.length_nil, Nat.zero_add] at hwin
  have hmin : min msgs.length maxQueueMessages = maxQueueMessages := by omega
  rw [hmin] at hwin
  refine ⟨?_, hwin, ?_, ?_⟩
  · rw [hwin]
    simp
    omega
  · intro n
    have hw := runDisconnected_window maxQueueMessages hpos (msgs.take n) [] (by simp)
    simp only [List.nil_append, List.length_nil, Nat.zero_add] at hw
    rw [hw]
    simp
    omega
  · rw [hwin]
    rfl

/-- Witness for `outbound_queue_bound`: capacity 2, three frames pushed
while disconnected — the queue ends as the last two in order and flushes
FIFO. -/
theorem outbound_queue_bound_witness :
    (runDisconnected 2 [] ["a", "b", "c"]).length = 2 ∧
    runDisconnected 2 [] ["a", "b", "c"] = ["b", "c"] ∧
    flushQueue (runDisconnected 2 [] ["a", "b", "c"]) = (["b", "c"], []) := by
  have h := outbound_queue_bound 2 ["a", "b", "c"] (by decide) (by decide)
  exact ⟨h.1, by simpa using h.2.1, by simpa using h.2.2.2⟩

/-- C8 counterexample: an upstream close with the relay's
`geminiConnected` handshake flag still `true` (code 1000, reason
"done") is not reported as a plain close — the relay still sends the
client an `error` frame before closing. -/
theorem upstream_close_after_handshake_counterexample :
    RelayEvent.errorFrame "Proxy upstream closed (1000): done" ∈
      (onUpstreamClose ⟨true, true⟩ 1000 "done").2 ∧
    (onUpstreamClose ⟨true, true⟩ 1000 "done").2 ≠
      [RelayEvent.closeClient 1000 "done"] := by
  decide

/-- C8 amended: whenever the upstream socket closes — whether or not the
handshake had completed — the relay sends the client one `error` frame
`Proxy upstream closed (<code>): <reason>` and then closes the client
socket with the matching code, and clears its upstream-connected flag. -/
theorem upstream_close_reporting (st : ProxyConnState) (code : Nat) (reason : String)
    (h : st.clientOpen = true) :
    (onUpstreamClose st code reason).2 =
      [RelayEvent.errorFrame
        ("Proxy upstream closed (" ++ toString code ++ "): " ++ upstreamCloseReason reason),
       RelayEvent.closeClient code (upstreamCloseReason reason)] ∧
    (onUpstreamClose st code reason).1.geminiConnected = false := by
  simp [onUpstreamClose, h]

/-- Witness for `upstream_close_reporting` at a concrete input. -/
theorem upstream_close_reporting_witness :
    (onUpstreamClose ⟨false, true⟩ 1011 "").2 =
      [RelayEvent.errorFrame "Proxy upstream closed (1011): (no reason)",
       RelayEvent.closeClient 1011 "(no reason)"] ∧
    (onUpstreamClose ⟨false, true⟩ 1011 "").1.geminiConnected = false := by
  have h := upstream_close_reporting ⟨false, true⟩ 1011 "" rfl
  simpa [upstreamCloseReason] using h

/-- C3: a valid `CONFIRM_EDIT` while no edit is in flight emits
`EDIT_STATUS editing` with the normalized instruction, invokes the
collaborator exactly once with the normalized image, mime type
(defaulting to image/jpeg) and instruction, then emits exactly one of
`EDIT_COMPLETED` (version label `v<n>` with the counter incremented by
one — so from the initial state, counter 0, the first success is
labelled `v1`) or `EDIT_FAILED` (the thrown message, falling back to
"Image edit failed" when empty), and clears the in-flight flag on both
paths. -/
theorem confirm_edit_cycle (st : EditState) (p : ConfirmPayload)
    (hfree : st.editInProgress = false)
    (hinstr : normalizeWhitespace (p.instruction.getD "") ≠ "")
    (himg : normalizeWhitespace (p.imageBase64.getD "") ≠ "") :
    (∀ edited : EditedImage,
      handleConfirmEdit st p (.ok edited) =
        (⟨false, st.editVersionCounter + 1, none⟩,
         [.editStatus "editing" (normalizeWhitespace (p.instruction.getD "")),
          .editCompleted (normalizeWhitespace (p.instruction.getD ""))
            ("v" ++ toString (st.editVersionCounter + 1)) (st.editVersionCounter + 1)
            edited.imageBase64 edited.mimeType],
         [⟨normalizeWhitespace (p.imageBase64.getD ""),
           if normalizeWhitespace (p.mimeType.getD "") = "" then "image/jpeg"
           else normalizeWhitespace (p.mimeType.getD ""),
           normalizeWhitespace (p.instruction.getD "")⟩])) ∧
    (∀ msg : String,
      handleConfirmEdit st p (.error msg) =
        (⟨false, st.editVersionCounter, none⟩,
         [.editStatus "editing" (normalizeWhitespace (p.instruction.getD "")),
          .editFailed (some (normalizeWhitespace (p.instruction.getD "")))
            (if msg = "" then "Image edit failed" else msg)],
         [⟨normalizeWhitespace (p.imageBase64.getD ""),
           if normalizeWhitespace (p.mimeType.getD "") = "" then "image/jpeg"
           else normalizeWhitespace (p.mimeType.getD ""),
           normalizeWhitespace (p.instruction.getD "")⟩])) := by
  constructor
  · intro edited
    simp [handleConfirmEdit, confirmStart, confirmFinish, hfree, hinstr, himg]
  · intro msg
    simp [handleConfirmEdit, confirmStart, confirmFinish, hfree, hinstr, himg]

/-- Witness for `confirm_edit_cycle`: the spec's edit-cycle scenario —
instruction "make it warmer", image "AAA", collaborator returns "BBB",
first success from the initial state is labelled v1. -/
theorem confirm_edit_cycle_witness :
    handleConfirmEdit initEditState ⟨some "make it warmer", some "AAA", some "image/jpeg"⟩
        (.ok ⟨"BBB", "image/jpeg"⟩) =
      (⟨false, 1, none⟩,
       [.editStatus "editing" "make it warmer",
        .editCompleted "make it warmer" "v1" 1 "BBB" "image/jpeg"],
       [⟨"AAA", "image/jpeg", "make it warmer"⟩]) := by
  have h := (confirm_edit_cycle initEditState
      ⟨some "make it warmer", some "AAA", some "image/jpeg"⟩ rfl (by decide) (by decide)).1
      ⟨"BBB", "image/jpeg"⟩
  simpa using h

/-- C10: a `CONFIRM_EDIT` whose instruction or image is missing or
whitespace-only (after normalization), arriving while no edit is in
flight, yields exactly one `EDIT_FAILED` event with message
"Missing image data or edit instruction.", no `EDIT_STATUS`, no
collaborator invocation, and an unchanged state (flag still false,
counter unchanged). -/
theorem confirm_edit_missing_fields (st : EditState) (p : ConfirmPayload)
    (outcome : Except String EditedImage)
    (hfree : st.editInProgress = false)
    (hbad : normalizeWhitespace (p.instruction.getD "") = "" ∨
            normalizeWhitespace (p.imageBase64.getD "") = "") :
    handleConfirmEdit st p outcome =
      (st, [.editFailed none "Missing image data or edit instruction."], []) := by
  rcases hbad with hbad | hbad <;>
    simp [handleConfirmEdit, confirmStart, hfree, hbad]

/-- Witness for `confirm_edit_missing_fields`: a whitespace-only
instruction with a present image fails validation with the fixed
message and leaves the state untouched. -/
theorem confirm_edit_missing_fields_witness :
    handleConfirmEdit initEditState ⟨some "   ", some "AAA", none⟩ (.error "ignored") =
      (initEditState, [.editFailed none "Missing image data or edit instruction."], []) := by
  exact confirm_edit_missing_fields initEditState ⟨some "   ", some "AAA", none⟩
    (.error "ignored") rfl (Or.inl (by decide))

/-- Int16 storage is the identity on values already in the signed
16-bit range. -/
theorem toInt16_eq_self {n : Int} (h1 : -32768 ≤ n) (h2 : n ≤ 32767) : toInt16 n = n := by
  unfold toInt16
  omega

/-- Per-sample round-trip error of the wire codec: strictly below
2/32768 for every sample in [-1, 1], and strictly below 1/32768 for
negative samples (the asymmetry comes from encoding non-negative
samples at scale 0x7fff while decoding divides by 0x8000). -/
theorem decode_encode_sample_close (x : ℚ) (h1 : -1 ≤ x) (h2 : x ≤ 1) :
    |decodeSample (encodeSample x) - x| < 1/16384 ∧
    (x < 0 → |decodeSample (encodeSample x) - x| < 1/32768) := by
  have hclamp : clampSample x = x := by
    unfold clampSample
    rw [min_eq_right h2, max_eq_right h1]
  by_cases hx : x < 0
  · have hfl : (⌊-(x * 32768)⌋ : ℚ) ≤ -(x * 32768) := Int.floor_le _
    have hfu : -(x * 32768) < ⌊-(x * 32768)⌋ + 1 := Int.lt_floor_add_one _
    have hb1 : (0 : ℤ) ≤ ⌊-(x * 32768)⌋ := Int.floor_nonneg.mpr (by nlinarith)
    have hb2 : ⌊-(x * 32768)⌋ ≤ 32768 := by
      have hle : (-(x * 32768) : ℚ) ≤ ((32768 : ℤ) : ℚ) := by push_cast; nlinarith
      exact (Int.floor_le_floor hle).trans (le_of_eq (Int.floor_intCast 32768))
    have henc : encodeSample x = -⌊-(x * 32768)⌋ := by
      unfold encodeSample truncRat
      rw [hclamp, if_pos hx, if_pos (by nlinarith : x * 32768 < 0)]
      exact toInt16_eq_self (by omega) (by omega)
    have hd : decodeSample (-⌊-(x * 32768)⌋) - x =
        (-(⌊-(x * 32768)⌋ : ℚ) - x * 32768) / 32768 := by
      unfold decodeSample
      push_cast
      ring
    rw [henc, hd]
    have hnum1 : (0 : ℚ) ≤ -(⌊-(x * 32768)⌋ : ℚ) - x * 32768 := by linarith
    have hnum2 : -(⌊-(x * 32768)⌋ : ℚ) - x * 32768 < 1 := by linarith
    have hkey : |(-(⌊-(x * 32768)⌋ : ℚ) - x * 32768) / 32768| < 1/32768 := by
      rw [abs_div, abs_of_nonneg hnum1]
      rw [div_lt_iff₀ (by norm_num : (0:ℚ) < |32768|)]
      rw [abs_of_pos (by norm_num : (0:ℚ) < 32768)]
      nlinarith
    exact ⟨hkey.trans (by norm_num), fun _ => hkey⟩
  · have hx0 : (0 : ℚ) ≤ x := le_of_not_lt hx
    have hfl : (⌊x * 32767⌋ : ℚ) ≤ x * 32767 := Int.floor_le _
    have hfu : x * 32767 < ⌊x * 32767⌋ + 1 := Int.lt_floor_add_one _
    have hb1 : (0 : ℤ) ≤ ⌊x * 32767⌋ := Int.floor_nonneg.mpr (by nlinarith)
    have hb2 : ⌊x * 32767⌋ ≤ 32767 := by
      have hle : (x * 32767 : ℚ) ≤ ((32767 : ℤ) : ℚ) := by push_cast; nlinarith
      exact (Int.floor_le_floor hle).trans (le_of_eq (Int.floor_intCast 32767))
    have henc : encodeSample x = ⌊x * 32767⌋ := by
      unfold encodeSample truncRat
      rw [hclamp, if_neg hx, if_neg (by nlinarith : ¬ x * 32767 < 0)]
      exact toInt16_eq_self (by omega) (by omega)
    have hd : decodeSample ⌊x * 32767⌋ - x = ((⌊x * 32767⌋ : ℚ) - x * 32768) / 32768 := by
      unfold decodeSample
      ring
    rw [henc, hd]
    have hnum1 : (⌊x * 32767⌋ : ℚ) - x * 32768 ≤ 0 := by nlinarith
    have hnum2 : -2 < (⌊x * 32767⌋ : ℚ) - x * 32768 := by nlinarith
    constructor
    · rw [abs_div, abs_of_nonpos hnum1]
      rw [div_lt_iff₀ (by norm_num : (0:ℚ) < |32768|)]
      rw [abs_of_pos (by norm_num : (0:ℚ) < 32768)]
      nlinarith
    · intro hcon
      exact absurd hcon hx

/-- C4 counterexample: the sample 131071/131072 (the float32 value
1 − 2⁻¹⁷, inside [-1, 1]) decodes to 16383/16384 after encoding — an
error of 7/131072, which exceeds the claimed 1/32768 (= 4/131072)
bound. -/
theorem codec_roundtrip_counterexample :
    decodePcm16 (encodePcm16 [(131071 : ℚ)/131072]) = [(16383 : ℚ)/16384] ∧
    ¬ |(16383 : ℚ)/16384 - 131071/131072| ≤ 1/32768 ∧
    (-1 : ℚ) ≤ 131071/131072 ∧ (131071 : ℚ)/131072 ≤ 1 := by
  refine ⟨?_, ?_, by norm_num, by norm_num⟩
  · norm_num [decodePcm16, encodePcm16, encodeSample, clampSample, truncRat, toInt16,
      decodeSample]
  · rw [abs_le]
    norm_num

/-- C4 amended: for every sample array within [-1, 1], decoding the
encoded wire form reconstructs each sample within quantization error
strictly below 2/32768 (= 1/16384); for negative samples the error is
below 1/32768. -/
theorem codec_roundtrip_amended (xs : List ℚ) (h : ∀ x ∈ xs, -1 ≤ x ∧ x ≤ 1) :
    List.Forall₂ (fun y x => |y - x| < 1/16384) (decodePcm16 (encodePcm16 xs)) xs ∧
    List.Forall₂ (fun y x => x < 0 → |y - x| < 1/32768) (decodePcm16 (encodePcm16 xs)) xs := by
  induction xs with
  | nil => simp [decodePcm16, encodePcm16]
  | cons a as ih =>
      have ha := h a (by simp)
      have hs := decode_encode_sample_close a ha.1 ha.2
      have ihs := ih (fun x hx => h x (by simp [hx]))
      simp only [decodePcm16, encodePcm16, List.map_cons]
      exact ⟨List.Forall₂.cons hs.1 ihs.1, List.Forall₂.cons hs.2 ihs.2⟩

/-- Witness for `codec_roundtrip_amended` on the concrete buffer
[1/2, -1/2]. -/
theorem codec_roundtrip_amended_witness :
    decodePcm16 (encodePcm16 [(1:ℚ)/2, -(1:ℚ)/2]) = [(16383 : ℚ)/32768, -(1:ℚ)/2] ∧
    List.Forall₂ (fun y x => |y - x| < 1/16384)
      (decodePcm16 (encodePcm16 [(1:ℚ)/2, -(1:ℚ)/2])) [(1:ℚ)/2, -(1:ℚ)/2] := by
  constructor
  · norm_num [decodePcm16, encodePcm16, encodeSample, clampSample, truncRat, toInt16,
      decodeSample]
  · exact (codec_roundtrip_amended [(1:ℚ)/2, -(1:ℚ)/2]
      (by intro x hx; fin_cases hx <;> norm_num)).1

/-- A non-speech frame leaves the hold deadline unchanged (only the
noise floor adapts) and opens the gate only if the deadline still
covers the frame's timestamp. -/
theorem gateStep_not_speech (st : GateState) (f : AudioFrameInput)
    (h : isSpeechFrame st f = false) :
    (gateStep st f).1.speechGateOpenUntilMs = st.speechGateOpenUntilMs ∧
    (gateStep st f).2.1 = false ∧
    (gateStep st f).2.2 = decide (f.nowMs < st.speechGateOpenUntilMs) := by
  simp [gateStep, h]

/-- A speech frame re-arms the hold deadline to `now + gateHoldMs` and
opens the gate. -/
theorem gateStep_speech (st : GateState) (f : AudioFrameInput)
    (h : isSpeechFrame st f = true) :
    (gateStep st f).1.speechGateOpenUntilMs = f.nowMs + gateHoldMs ∧
    (gateStep st f).2.1 = true ∧ (gateStep st f).2.2 = true := by
  simp [gateStep, h]

/-- While no frame has yet been classified as speech, the gate stays
closed — provided the initial hold deadline does not already cover the
frames (at the initial state the deadline is 0). -/
theorem gateRun_closed_prefix :
    ∀ (fs : List AudioFrameInput) (st : GateState),
      (∀ f ∈ fs, st.speechGateOpenUntilMs ≤ f.nowMs) →
      ∀ o ∈ (gateRun st fs).takeWhile (fun o => !o.2.1), o.2.2 = false := by
  intro fs
  induction fs with
  | nil =>
      intro st _ o ho
      simp [gateRun] at ho
  | cons f rest ih =>
      intro st h o ho
      by_cases hs : isSpeechFrame st f = true
      · have hg := gateStep_speech st f hs
        simp only [gateRun, List.takeWhile] at ho
        rw [hg.2.1] at ho
        simp at ho
      · have hs' : isSpeechFrame st f = false := by
          cases hq : isSpeechFrame st f
          · rfl
          · exact absurd hq hs
        have hg := gateStep_not_speech st f hs'
        have hopen : (gateStep st f).2.2 = false := by
          rw [hg.2.2]
          have := h f (by simp)
          simp
          linarith
        simp only [gateRun, List.takeWhile] at ho
        rw [hg.2.1] at ho
        rcases List.mem_cons.mp (by simpa using ho) with hhead | htail
        · rw [hhead]
          exact hopen
        · refine ih (gateStep st f).1 ?_ o htail
          intro g hgmem
          rw [hg.1]
          exact h g (by simp [hgmem])

/-- Once the hold deadline is at least `T`, every later frame whose
timestamp is below `T` sees an open gate (speech frames can only move
the deadline further out, given they occur at times covering `T`). -/
theorem gateRun_open_while_held :
    ∀ (fs : List AudioFrameInput) (st : GateState) (T : ℚ),
      T ≤ st.speechGateOpenUntilMs →
      (∀ f ∈ fs, T ≤ f.nowMs + gateHoldMs) →
      ∀ o ∈ gateRun st fs, o.1.nowMs < T → o.2.2 = true := by
  intro fs
  induction fs with
  | nil =>
      intro st T _ _ o ho
      simp [gateRun] at ho
  | cons f rest ih =>
      intro st T hT hall o ho hlt
      have hnextT : T ≤ (gateStep st f).1.speechGateOpenUntilMs := by
        by_cases hs : isSpeechFrame st f = true
        · rw [(gateStep_speech st f hs).1]
          exact hall f (by simp)
        · have hs' : isSpeechFrame st f = false := by
            cases hq : isSpeechFrame st f
            · rfl
            · exact absurd hq hs
          rw [(gateStep_not_speech st f hs').1]
          exact hT
      simp only [gateRun] at ho
      rcases List.mem_cons.mp ho with hhead | htail
      · by_cases hs : isSpeechFrame st f = true
        · rw [hhead]
          exact (gateStep_speech st f hs).2.2
        · have hs' : isSpeechFrame st f = false := by
            cases hq : isSpeechFrame st f
            · rfl
            · exact absurd hq hs
          rw [hhead]
          rw [(gateStep_not_speech st f hs').2.2]
          have hfnow : o.1.nowMs = f.nowMs := by rw [hhead]
          simp only [decide_eq_true_eq]
          have : f.nowMs < T := by rw [← hfnow]; exact hlt
          linarith
      · exact ih (gateStep st f).1 T hnextT (fun g hg => hall g (by simp [hg])) o htail hlt

/-- C6: speech-gate hysteresis over any time-ordered frame sequence
processed from the initial state.  First, every frame in the prefix
before the first speech-classified frame sees a closed gate.  Second,
after any frame classified as speech, every subsequent frame processed
within the hold window (`gateHoldMs` = 360 ms of that classification)
sees an open gate, even when its own RMS is below threshold. -/
theorem speech_gate_hysteresis (fs : List AudioFrameInput)
    (hsorted : List.Pairwise (fun a b => a.nowMs ≤ b.nowMs) fs)
    (hnn : ∀ f ∈ fs, 0 ≤ f.nowMs) :
    (∀ o ∈ (gateRun initGateState fs).takeWhile (fun o => !o.2.1), o.2.2 = false) ∧
    (∀ l1 f l2, fs = l1 ++ f :: l2 →
      isSpeechFrame (gateFinal initGateState l1) f = true →
      (gateStep (gateFinal initGateState l1) f).2.2 = true ∧
      (∀ o ∈ gateRun (gateStep (gateFinal initGateState l1) f).1 l2,
        o.1.nowMs < f.nowMs + gateHoldMs → o.2.2 = true)) := by
  constructor
  · exact gateRun_closed_prefix fs initGateState (fun f hf => hnn f hf)
  · intro l1 f l2 heq hsp
    have hpair : List.Pairwise (fun a b => a.nowMs ≤ b.nowMs) (l1 ++ f :: l2) := heq ▸ hsorted
    have hfl2 : ∀ g ∈ l2, f.nowMs ≤ g.nowMs :=
      (List.pairwise_cons.mp (List.pairwise_append.mp hpair).2.1).1
    refine ⟨(gateStep_speech _ f hsp).2.2, ?_⟩
    have hT : f.nowMs + gateHoldMs ≤
        (gateStep (gateFinal initGateState l1) f).1.speechGateOpenUntilMs := by
      rw [(gateStep_speech _ f hsp).1]
    exact gateRun_open_while_held l2 (gateStep (gateFinal initGateState l1) f).1
      (f.nowMs + gateHoldMs) hT
      (fun g hg => by have := hfl2 g hg; linarith)

/-- Witness for `speech_gate_hysteresis`: a quiet frame at t=0 (gate
closed), a loud frame at t=50 (speech), a quiet frame at t=100 (inside
the 360 ms hold window, gate open). -/
theorem speech_gate_hysteresis_witness :
    (∀ o ∈ (gateRun initGateState
        [⟨0, 0, false⟩, ⟨1, 50, false⟩, ⟨0, 100, false⟩]).takeWhile (fun o => !o.2.1),
      o.2.2 = false) ∧
    (gateStep (gateFinal initGateState [⟨0, 0, false⟩]) ⟨1, 50, false⟩).2.2 = true ∧
    (∀ o ∈ gateRun (gateStep (gateFinal initGateState [⟨0, 0, false⟩]) ⟨1, 50, false⟩).1
        [⟨0, 100, false⟩], o.1.nowMs < (50 : ℚ) + gateHoldMs → o.2.2 = true) := by
  have h := speech_gate_hysteresis [⟨0, 0, false⟩, ⟨1, 50, false⟩, ⟨0, 100, false⟩]
    (by norm_num [List.pairwise_cons])
    (by intro f hf; fin_cases hf <;> norm_num)
  have hb := h.2 [⟨0, 0, false⟩] ⟨1, 50, false⟩ [⟨0, 100, false⟩] rfl
    (by norm_num [isSpeechFrame, gateFinal, gateStep, adaptNoiseFloor, effectiveThreshold,
      dynamicThreshold, minSpeechRms, speechThresholdMultiplier, initGateState])
  exact ⟨h.1, hb.1, hb.2⟩

/-- C7: while connected, every captured microphone frame produces
exactly one transmitted media chunk of the same sample count: the
encoded samples when the gate is open, an all-zero (silence) buffer of
the same length when it is closed — never a dropped frame. -/
theorem mic_frame_always_transmitted (st : SessionAudioState) (samples : List ℚ)
    (rms nowMs : ℚ) (h : st.connected = true) :
    ∃ out : List Int,
      (sendAudioChunk st samples rms nowMs).2 = some out ∧
      out.length = samples.length ∧
      ((gateStep st.gate ⟨rms, nowMs, st.isPlaying⟩).2.2 = false →
        out = List.replicate samples.length 0) ∧
      ((gateStep st.gate ⟨rms, nowMs, st.isPlaying⟩).2.2 = true →
        out = samples.map encodeSample) := by
  refine ⟨if (gateStep st.gate ⟨rms, nowMs, st.isPlaying⟩).2.2 then samples.map encodeSample
    else List.replicate samples.length 0, ?_, ?_, ?_, ?_⟩
  · simp only [sendAudioChunk, h, if_true]
  · by_cases hg : (gateStep st.gate ⟨rms, nowMs, st.isPlaying⟩).2.2 <;> simp [hg]
  · intro hg
    simp [hg]
  · intro hg
    simp [hg]

/-- Witness for `mic_frame_always_transmitted`: a quiet frame right
after connecting is still transmitted, as one silent sample. -/
theorem mic_frame_always_transmitted_witness :
    (sendAudioChunk ⟨true, false, initGateState⟩ [(1:ℚ)/2] 0 0).2 = some [0] := by
  obtain ⟨out, h1, h2, h3, h4⟩ :=
    mic_frame_always_transmitted ⟨true, false, initGateState⟩ [(1:ℚ)/2] 0 0 rfl
  have hg : (gateStep (SessionAudioState.mk true false initGateState).gate
      ⟨0, 0, false⟩).2.2 = false := by
    norm_num [gateStep, isSpeechFrame, adaptNoiseFloor, effectiveThreshold,
      dynamicThreshold, minSpeechRms, speechThresholdMultiplier, initGateState]
  rw [h1, h3 hg]
  rfl

/-- C9: committing the same final transcript event twice in succession
commits exactly one entry — the second identical append returns the log
unchanged (idempotence holds for every entry), and the first append
commits exactly the one normalized entry when it is a genuinely new
final event. -/
theorem transcript_dedup_idempotent (log : List TranscriptEntry) (entry : TranscriptEntry) :
    appendTranscriptEntry (appendTranscriptEntry log entry) entry =
      appendTranscriptEntry log entry ∧
    (entry.isFinal = true → normalizeWhitespace entry.text ≠ "" →
      (∀ last, log.getLast? = some last →
        ¬(last.role = entry.role ∧ last.text = normalizeWhitespace entry.text)) →
      appendTranscriptEntry log entry =
        log ++ [⟨entry.role, normalizeWhitespace entry.text, true⟩]) := by
  constructor
  · by_cases hf : entry.isFinal
    · by_cases hn : normalizeWhitespace entry.text = ""
      · simp [appendTranscriptEntry, hf, hn]
      · cases hlast : log.getLast? with
        | none =>
            have he' : (log ++ [TranscriptEntry.mk entry.role
                (normalizeWhitespace entry.text) true]).getLast? =
                some ⟨entry.role, normalizeWhitespace entry.text, true⟩ :=
              List.getLast?_concat _
            simp [appendTranscriptEntry, hf, hn, hlast, he']
        | some last =>
            by_cases hdup : last.role = entry.role ∧
                last.text = normalizeWhitespace entry.text
            · simp [appendTranscriptEntry, hf, hn, hlast, hdup]
            · have he' : (log ++ [TranscriptEntry.mk entry.role
                  (normalizeWhitespace entry.text) true]).getLast? =
                  some ⟨entry.role, normalizeWhitespace entry.text, true⟩ :=
                List.getLast?_concat _
              simp [appendTranscriptEntry, hf, hn, hlast, hdup, he']
    · simp [appendTranscriptEntry, hf]
  · intro hf hn hnew
    cases hlast : log.getLast? with
    | none => simp [appendTranscriptEntry, hf, hn, hlast]
    | some last =>
        have hnd := hnew last hlast
        simp [appendTranscriptEntry, hf, hn, hlast, hnd]

/-- Witness for `transcript_dedup_idempotent`: the raw final event
`" hi  there "` commits once as "hi there"; the identical second append
leaves the log unchanged. -/
theorem transcript_dedup_idempotent_witness :
    appendTranscriptEntry (appendTranscriptEntry [] ⟨"user", " hi  there ", true⟩)
        ⟨"user", " hi  there ", true⟩ =
      appendTranscriptEntry [] ⟨"user", " hi  there ", true⟩ ∧
    appendTranscriptEntry [] ⟨"user", " hi  there ", true⟩ =
      [⟨"user", "hi there", true⟩] := by
  have h := transcript_dedup_idempotent [] ⟨"user", " hi  there ", true⟩
  refine ⟨h.1, ?_⟩
  have h2 := h.2 rfl (by decide) (by intro last hl; simp at hl)
  simpa using h2
